/-
Verification of the batch aggregation pipeline of `src/src/main/batch_process_trip.py`
(class `TaxiBatch`, method `process_batch_data`) against its specification.

The pipeline (lines 48-54 of the source) is:
  .map(lambda row: util.process_trip_record(row, zone_info_bc.value))
  .filter(lambda row: row != None)
  .map(lambda row: ((row[0].split(" ")[0], row[1], row[2], row[3], row[4], row[5]), 1))
  .reduceByKey(lambda x, y: x + y)
  .map(lambda x: ((x[0][1], x[0][2], x[0][3], x[0][4], x[0][5]), x[1]))
  .aggregateByKey((0,0), lambda x, y: (x[0]+1, x[1]+y), lambda x, y: (x[0]+y[0], x[1]+y[1]))
  .map(lambda x: (x[0][0], x[0][1], x[0][2], x[0][3], x[0][4], x[1][1]/x[1][0]))

The source file is Python 2 (it uses the `print "..."` statement form), so the final
`x[1][1]/x[1][0]` is integer floor division on the nonnegative integer accumulators;
it is embedded as `Nat` division.

Spark RDDs are embedded as lists; `reduceByKey` with the associative commutative
operator `+` is embedded as the canonical per-key sum (one entry per distinct key),
and `aggregateByKey` with seed `(0,0)`, sequence operation `(x, y) -> (x.1+1, x.2+y)`
and combine operation `(x, y) -> (x.1+y.1, x.2+y.2)` as the canonical per-key fold of
the sequence operation over the key's values; key order, unspecified by Spark, is
fixed as first-occurrence dedup order of the embedding.

The helper module `util` is not part of the sources; `util.process_trip_record` and
the zone dictionary are modelled from the specification (see their doc comments).
-/
import Mathlib

namespace TaxiBatch

/-- Python `str.split(sep)` on a single-character separator, over explicit
character lists (structural recursion so that the kernel can evaluate it). -/
def pySplitAux (sep : Char) : List Char → List Char → List (List Char)
  | [], acc => [acc.reverse]
  | c :: cs, acc =>
      if c = sep then acc.reverse :: pySplitAux sep cs []
      else pySplitAux sep cs (c :: acc)

/-- Python `s.split(sep)` for a string and a one-character separator. -/
def pySplit (s : String) (sep : Char) : List String :=
  (pySplitAux sep s.data []).map String.mk

/-- Value of a decimal digit character, `none` on a non-digit. -/
def digitVal (c : Char) : Option Nat :=
  if c.isDigit then some (c.toNat - 48) else none

/-- Accumulating decimal parse of a character list; `none` on any non-digit. -/
def digitsToNat : List Char → Nat → Option Nat
  | [], acc => some acc
  | c :: cs, acc =>
      match digitVal c with
      | some d => digitsToNat cs (acc * 10 + d)
      | none => none

/-- Python `int(s)` restricted to nonnegative decimal literals: `none` on the
empty string or any non-digit character (Python raises `ValueError`, which the
normalizer turns into a discard). -/
def parseNat (s : String) : Option Nat :=
  match s.data with
  | [] => none
  | cs => digitsToNat cs 0

/-- A parsed pickup timestamp. -/
structure Timestamp where
  year : Nat
  month : Nat
  day : Nat
  hour : Nat
  minute : Nat
  second : Nat
deriving DecidableEq, Repr

/-- Field ranges a `YYYY-MM-DD HH:MM:SS` timestamp must satisfy to parse. -/
def validTS (ts : Timestamp) : Bool :=
  1 ≤ ts.month && ts.month ≤ 12 && 1 ≤ ts.day && ts.day ≤ 31 &&
  ts.hour ≤ 23 && ts.minute ≤ 59 && ts.second ≤ 59

/-- Shape parse of a `YYYY-MM-DD HH:MM:SS` timestamp string, before range checks. -/
def rawParseTS (s : String) : Option Timestamp :=
  match pySplit s ' ' with
  | [d, t] =>
      match pySplit d '-', pySplit t ':' with
      | [ys, ms, ds], [hs, mins, ss] =>
          match parseNat ys, parseNat ms, parseNat ds,
                parseNat hs, parseNat mins, parseNat ss with
          | some y, some mo, some da, some h, some mi, some se =>
              some ⟨y, mo, da, h, mi, se⟩
          | _, _, _, _, _, _ => none
      | _, _ => none
  | _ => none

/-- Modelled from the spec: the timestamp parsing done inside
`util.process_trip_record` (the `util` module is absent from the sources).
"Parses the pickup timestamp into a `(date, time-of-day)` pair; fails with
`Discard` on unparseable timestamps." A timestamp parses exactly when it has
the `YYYY-MM-DD HH:MM:SS` shape with all six fields numeric and in range. -/
def parseTimestamp (s : String) : Option Timestamp :=
  match rawParseTS s with
  | none => none
  | some ts => if validTS ts then some ts else none

/-- Minutes elapsed since the midnight that starts the timestamp's date. -/
def minutesSinceMidnight (ts : Timestamp) : Nat :=
  ts.hour * 60 + ts.minute

/-- The 15-minute time block of a timestamp: `floor(minutes_since_midnight / 15)`. -/
def timeBlock (ts : Timestamp) : Nat :=
  minutesSinceMidnight ts / 15

/-- Day of week of a Gregorian calendar date, by Zeller's congruence. -/
def dayOfWeek (y m d : Nat) : String :=
  let y2 := if m ≤ 2 then y - 1 else y
  let m2 := if m ≤ 2 then m + 12 else m
  let K := y2 % 100
  let J := y2 / 100
  match (d + (13 * (m2 + 1)) / 5 + K + K / 4 + J / 4 + 5 * J) % 7 with
  | 0 => "Saturday"
  | 1 => "Sunday"
  | 2 => "Monday"
  | 3 => "Tuesday"
  | 4 => "Wednesday"
  | 5 => "Thursday"
  | _ => "Friday"

/-- The zone index: mapping from pickup location id to
`(borough_code, borough_name)`, built once and read-only. -/
abbrev ZoneIndex := List (Nat × String × String)

/-- Lookup of a location id in the zone index; `none` when unresolved. -/
def zoneLookup (z : ZoneIndex) (i : Nat) : Option (String × String) :=
  match z with
  | [] => none
  | (j, bc, bn) :: rest => if j = i then some (bc, bn) else zoneLookup rest i

/-- A normalized trip event, the tuple returned by `util.process_trip_record`:
position 0 holds the raw pickup timestamp string (the driver later takes
`row[0].split(" ")[0]`, its date portion), positions 1-5 hold time block,
month, day of week, borough code and borough name. -/
structure NormRow where
  pickup : String
  time_block : Nat
  month : Nat
  day : String
  borough_code : String
  borough_name : String
deriving DecidableEq, Repr

/-- Modelled from the spec: `util.process_trip_record(row, zone_info)` (the
`util` module is absent from the sources). "Splits the raw line on the field
delimiter; fails with `Discard` if the field count or types are not parseable
(malformed timestamp, non-numeric location id, wrong column count). Parses the
pickup timestamp ...; computes `time_block = floor(minutes_since_midnight/15)`;
derives `month` and `day_of_week` from the parsed date; looks up the pickup
location id in `zone_index`; fails with `Discard` if unresolved." The input
relation has 17 comma-delimited positional fields, of which only the pickup
timestamp (index 1) and the pickup location id (index 7) are used; `Discard`
is embedded as `none`. -/
def process_trip_record (line : String) (zone : ZoneIndex) : Option NormRow :=
  if (pySplit line ',').length = 17 then
    match parseTimestamp ((pySplit line ',').getD 1 "") with
    | none => none
    | some ts =>
        match parseNat ((pySplit line ',').getD 7 "") with
        | none => none
        | some loc =>
            match zoneLookup zone loc with
            | none => none
            | some (bc, bn) =>
                some { pickup := (pySplit line ',').getD 1 ""
                       time_block := timeBlock ts
                       month := ts.month
                       day := dayOfWeek ts.year ts.month ts.day
                       borough_code := bc
                       borough_name := bn }
  else none

/-- The stage-2 key `(time_block, month, day_of_week, borough_code, borough_name)`. -/
abbrev MeanKey := Nat × Nat × String × String × String

/-- The stage-1 key: the stage-2 key extended with the date string. -/
abbrev DailyKey := String × MeanKey

/-- Line 50 of the source: the stage-1 grouping key of a normalized event,
`(row[0].split(" ")[0], row[1], row[2], row[3], row[4], row[5])` - the date
portion of the pickup timestamp together with the five stage-2 components. -/
def dailyKey (r : NormRow) : DailyKey :=
  ((pySplit r.pickup ' ').headD "",
   (r.time_block, r.month, r.day, r.borough_code, r.borough_name))

/-- The distinct keys of a keyed list, in dedup order. -/
def keysOf {κ β : Type} [DecidableEq κ] (ps : List (κ × β)) : List κ :=
  (ps.map Prod.fst).dedup

/-- All values a keyed list carries at one key, in list order. -/
def valuesFor {κ β : Type} [DecidableEq κ] (ps : List (κ × β)) (k : κ) : List β :=
  (ps.filter fun p => p.1 = k).map Prod.snd

/-- Line 51 of the source: the `reduceByKey` operator `lambda x, y : x + y`. -/
def stage1Op (x y : Nat) : Nat := x + y

/-- The per-key result of `.reduceByKey(lambda x, y: x + y)`: the fold of the
key's values under `stage1Op`, which (the operator being associative and
commutative addition) is their sum. -/
def sumFor {κ : Type} [DecidableEq κ] (ps : List (κ × Nat)) (k : κ) : Nat :=
  (valuesFor ps k).foldl stage1Op 0

/-- Embedding of `.reduceByKey(lambda x, y: x + y)` (line 51): one entry per
distinct key, carrying the fold of that key's values. -/
def reduceByKey {κ : Type} [DecidableEq κ] (ps : List (κ × Nat)) : List (κ × Nat) :=
  (keysOf ps).map fun k => (k, sumFor ps k)

/-- Line 52 of the source: re-key a daily bucket count by dropping the date,
`lambda x : ((x[0][1], x[0][2], x[0][3], x[0][4], x[0][5]), x[1])`. -/
def dropDate (p : DailyKey × Nat) : MeanKey × Nat :=
  (p.1.2, p.2)

/-- Line 53 of the source: the `aggregateByKey` sequence operation
`lambda x, y : (x[0] + 1, x[1] + y)`. -/
def aggSeq (x : Nat × Nat) (y : Nat) : Nat × Nat :=
  (x.1 + 1, x.2 + y)

/-- Line 53 of the source: the `aggregateByKey` combine operation
`lambda x, y : (x[0] + y[0], x[1] + y[1])`. -/
def aggComb (x y : Nat × Nat) : Nat × Nat :=
  (x.1 + y.1, x.2 + y.2)

/-- The per-key accumulator of `.aggregateByKey((0,0), aggSeq, aggComb)`:
the fold of the sequence operation over the key's values from the seed. -/
def aggFor {κ : Type} [DecidableEq κ] (ps : List (κ × Nat)) (k : κ) : Nat × Nat :=
  (valuesFor ps k).foldl aggSeq (0, 0)

/-- The number of values a keyed list carries at one key: for the stage-2
input this is the number of contributing daily buckets, i.e. distinct dates. -/
def daysFor {κ : Type} [DecidableEq κ] (ps : List (κ × Nat)) (k : κ) : Nat :=
  (valuesFor ps k).length

/-- Embedding of `.aggregateByKey((0,0), aggSeq, aggComb)` (line 53): one
entry per distinct key, carrying that key's accumulator of days seen and total. -/
def aggregateByKey {κ : Type} [DecidableEq κ] (ps : List (κ × Nat)) :
    List (κ × (Nat × Nat)) :=
  (keysOf ps).map fun k => (k, aggFor ps k)

/-- A final output row
`(time_block, month, day_of_week, borough_code, borough_name, mean)`. -/
abbrev OutputRow := Nat × Nat × String × String × String × Nat

/-- Line 54 of the source: flatten a keyed accumulator into an output row,
`lambda x : (x[0][0], x[0][1], x[0][2], x[0][3], x[0][4], x[1][1]/x[1][0])`.
The division is Python 2 `/` on nonnegative integers, i.e. floor division. -/
def finalizeRow (p : MeanKey × (Nat × Nat)) : OutputRow :=
  (p.1.1, p.1.2.1, p.1.2.2.1, p.1.2.2.2.1, p.1.2.2.2.2, p.2.2 / p.2.1)

/-- Stage 1 over normalized events: lines 50-51, mapping each event to
`(dailyKey, 1)` and reducing by key with `+`. -/
def stage1 (rows : List NormRow) : List (DailyKey × Nat) :=
  reduceByKey (rows.map fun r => (dailyKey r, 1))

/-- Stage 2 over re-keyed daily counts: lines 53-54. -/
def stage2 (ps : List (MeanKey × Nat)) : List OutputRow :=
  (aggregateByKey ps).map finalizeRow

/-- The whole `process_batch_data` transformation chain (lines 48-54) from raw
text lines and the broadcast zone index to the final output rows. -/
def process_batch_data (lines : List String) (zone : ZoneIndex) : List OutputRow :=
  stage2 (((stage1 ((lines.map fun l => process_trip_record l zone).filterMap id))).map dropDate)

/-- Concrete zone index for the concrete-input theorems: location id 5
resolves to borough code "B", borough name "Brooklyn". -/
def exZone : ZoneIndex := [(5, ("B", "Brooklyn"))]

/-- Concrete raw line: a trip from location 5 on 2020-01-01 (a Wednesday) at
08:00, i.e. time block 32; 17 comma-delimited fields. -/
def exLine1 : String := "1,2020-01-01 08:00:00,x,x,x,x,x,5,x,x,x,x,x,x,x,x,x"

/-- Concrete raw line: a trip from location 5 on 2020-01-08 (also a Wednesday)
at 08:01, again time block 32. -/
def exLine2 : String := "1,2020-01-08 08:01:00,x,x,x,x,x,5,x,x,x,x,x,x,x,x,x"

/-- Concrete raw line: a second trip from location 5 on 2020-01-08 at 08:02,
again time block 32. -/
def exLine3 : String := "1,2020-01-08 08:02:00,x,x,x,x,x,5,x,x,x,x,x,x,x,x,x"

/-- Concrete malformed raw line (wrong column count): the normalizer
discards it. -/
def exBad : String := "not,a,valid,line"

/-- The stage-2 key shared by the three concrete example trips. -/
def exKey : MeanKey := (32, 1, "Wednesday", "B", "Brooklyn")

/-! ## Helper lemmas about the keyed-list combinators -/

theorem mem_keysOf {κ β : Type} [DecidableEq κ] {ps : List (κ × β)} {k : κ} :
    k ∈ keysOf ps ↔ k ∈ ps.map Prod.fst :=
  List.mem_dedup

theorem nodup_keysOf {κ β : Type} [DecidableEq κ] (ps : List (κ × β)) :
    (keysOf ps).Nodup :=
  List.nodup_dedup _

theorem keysOf_perm {κ β : Type} [DecidableEq κ] {ps qs : List (κ × β)}
    (h : ps.Perm qs) : (keysOf ps).Perm (keysOf qs) :=
  (h.map Prod.fst).dedup

theorem foldl_stage1Op (l : List Nat) (a : Nat) :
    l.foldl stage1Op a = a + l.sum := by
  induction l generalizing a with
  | nil => simp
  | cons b t ih =>
      simp only [List.foldl_cons, ih, List.sum_cons, stage1Op]
      omega

theorem sumFor_eq_sum {κ : Type} [DecidableEq κ] (ps : List (κ × Nat)) (k : κ) :
    sumFor ps k = (valuesFor ps k).sum := by
  unfold sumFor
  rw [foldl_stage1Op]
  omega

theorem foldl_aggSeq (l : List Nat) (a : Nat × Nat) :
    l.foldl aggSeq a = (a.1 + l.length, a.2 + l.sum) := by
  induction l generalizing a with
  | nil => simp
  | cons b t ih =>
      simp only [List.foldl_cons, ih, List.sum_cons, List.length_cons, aggSeq,
        Prod.mk.injEq]
      constructor <;> omega

theorem foldl_aggComb (l : List (Nat × Nat)) (a : Nat × Nat) :
    l.foldl aggComb a = (a.1 + (l.map Prod.fst).sum, a.2 + (l.map Prod.snd).sum) := by
  induction l generalizing a with
  | nil => simp
  | cons b t ih =>
      simp only [List.foldl_cons, ih, List.map_cons, List.sum_cons, aggComb,
        Prod.mk.injEq]
      constructor <;> omega

theorem aggFor_eq {κ : Type} [DecidableEq κ] (ps : List (κ × Nat)) (k : κ) :
    aggFor ps k = (daysFor ps k, sumFor ps k) := by
  unfold aggFor daysFor
  rw [foldl_aggSeq, sumFor_eq_sum]
  simp

theorem valuesFor_append {κ β : Type} [DecidableEq κ] (ps qs : List (κ × β)) (k : κ) :
    valuesFor (ps ++ qs) k = valuesFor ps k ++ valuesFor qs k := by
  unfold valuesFor
  rw [List.filter_append, List.map_append]

theorem valuesFor_perm {κ β : Type} [DecidableEq κ] {ps qs : List (κ × β)}
    (h : ps.Perm qs) (k : κ) : (valuesFor ps k).Perm (valuesFor qs k) :=
  (h.filter _).map _

theorem valuesFor_cons {κ β : Type} [DecidableEq κ] (a : κ) (b : β)
    (ps : List (κ × β)) (k : κ) :
    valuesFor ((a, b) :: ps) k =
      if a = k then b :: valuesFor ps k else valuesFor ps k := by
  by_cases h : a = k <;> simp [valuesFor, List.filter_cons, h]

theorem mem_valuesFor {κ β : Type} [DecidableEq κ] {ps : List (κ × β)} {k : κ} {b : β} :
    b ∈ valuesFor ps k ↔ (k, b) ∈ ps := by
  induction ps with
  | nil => simp [valuesFor]
  | cons p t ih =>
      obtain ⟨a, c⟩ := p
      rw [valuesFor_cons]
      by_cases h : a = k
      · subst h
        simp [ih]
      · simp only [if_neg h, ih, List.mem_cons]
        constructor
        · exact Or.inr
        · rintro (heq | hmem)
          · exact absurd (congrArg Prod.fst heq).symm h
          · exact hmem

theorem one_le_daysFor {κ : Type} [DecidableEq κ] {ps : List (κ × Nat)} {k : κ}
    (hk : k ∈ keysOf ps) : 1 ≤ daysFor ps k := by
  rw [mem_keysOf] at hk
  rcases List.mem_map.1 hk with ⟨p, hp, rfl⟩
  have hv : p.2 ∈ valuesFor ps p.1 := mem_valuesFor.2 (by rw [Prod.mk.eta]; exact hp)
  exact List.length_pos_of_mem hv

theorem sumFor_append {κ : Type} [DecidableEq κ] (ps qs : List (κ × Nat)) (k : κ) :
    sumFor (ps ++ qs) k = stage1Op (sumFor ps k) (sumFor qs k) := by
  simp [sumFor_eq_sum, valuesFor_append, stage1Op]

theorem sumFor_perm {κ : Type} [DecidableEq κ] {ps qs : List (κ × Nat)}
    (h : ps.Perm qs) (k : κ) : sumFor ps k = sumFor qs k := by
  rw [sumFor_eq_sum, sumFor_eq_sum]
  exact (valuesFor_perm h k).sum_eq

theorem daysFor_append {κ : Type} [DecidableEq κ] (ps qs : List (κ × Nat)) (k : κ) :
    daysFor (ps ++ qs) k = daysFor ps k + daysFor qs k := by
  simp [daysFor, valuesFor_append]

theorem daysFor_perm {κ : Type} [DecidableEq κ] {ps qs : List (κ × Nat)}
    (h : ps.Perm qs) (k : κ) : daysFor ps k = daysFor qs k :=
  (valuesFor_perm h k).length_eq

theorem aggFor_append {κ : Type} [DecidableEq κ] (ps qs : List (κ × Nat)) (k : κ) :
    aggFor (ps ++ qs) k = aggComb (aggFor ps k) (aggFor qs k) := by
  simp [aggFor_eq, aggComb, daysFor_append, sumFor_append, stage1Op]

theorem aggFor_perm {κ : Type} [DecidableEq κ] {ps qs : List (κ × Nat)}
    (h : ps.Perm qs) (k : κ) : aggFor ps k = aggFor qs k := by
  rw [aggFor_eq, aggFor_eq, daysFor_perm h, sumFor_perm h]

theorem sumFor_flatten {κ : Type} [DecidableEq κ]
    (parts : List (List (κ × Nat))) (k : κ) :
    sumFor parts.flatten k = (parts.map fun p => sumFor p k).foldl stage1Op 0 := by
  induction parts with
  | nil => simp [sumFor, valuesFor]
  | cons p parts ih =>
      rw [List.flatten_cons, sumFor_append, List.map_cons, ih,
        foldl_stage1Op, foldl_stage1Op, List.sum_cons]
      simp only [stage1Op]
      omega

theorem aggFor_flatten {κ : Type} [DecidableEq κ]
    (parts : List (List (κ × Nat))) (k : κ) :
    aggFor parts.flatten k = (parts.map fun p => aggFor p k).foldl aggComb (0, 0) := by
  induction parts with
  | nil => simp [aggFor, valuesFor]
  | cons p parts ih =>
      rw [List.flatten_cons, aggFor_append, List.map_cons, ih,
        foldl_aggComb, foldl_aggComb, List.map_cons, List.map_cons,
        List.sum_cons, List.sum_cons]
      simp only [aggComb, Prod.mk.injEq]
      constructor <;> omega

theorem sumFor_cons {κ : Type} [DecidableEq κ] (a : κ) (b : Nat)
    (ps : List (κ × Nat)) (k : κ) :
    sumFor ((a, b) :: ps) k = (if a = k then b else 0) + sumFor ps k := by
  rw [sumFor_eq_sum, sumFor_eq_sum, valuesFor_cons]
  split <;> simp

theorem sumFor_pairs {α κ : Type} [DecidableEq κ] (f : α → κ) (rows : List α) (k : κ) :
    sumFor (rows.map fun r => (f r, 1)) k = (rows.filter fun r => f r = k).length := by
  induction rows with
  | nil => simp [sumFor, valuesFor]
  | cons r t ih =>
      rw [List.map_cons, sumFor_cons, List.filter_cons]
      by_cases h : f r = k <;> simp [h, ih] <;> omega

/-- Sum, over a duplicate-free list of keys covering every element of `l`,
of the sizes of the key fibers of `l`: the fibers partition `l`. -/
theorem sum_keyed {α κ : Type} [DecidableEq κ] (f : α → κ) :
    ∀ ks : List κ, ks.Nodup → ∀ l : List α, (∀ x ∈ l, f x ∈ ks) →
      (ks.map fun k => (l.filter fun x => f x = k).length).sum = l.length := by
  intro ks
  induction ks with
  | nil =>
      intro _ l hcov
      cases l with
      | nil => simp
      | cons a t => exact absurd (hcov a (List.mem_cons_self a t)) (List.not_mem_nil _)
  | cons k ks ih =>
      intro hnd l hcov
      obtain ⟨hknot, hnd2⟩ := List.nodup_cons.1 hnd
      rw [List.map_cons, List.sum_cons]
      have hsplit : l.length = (l.filter fun x => f x = k).length
          + (l.filter fun x => ¬ f x = k).length := by
        have h := List.length_eq_length_filter_add (l := l) fun x => decide (f x = k)
        have he : (l.filter fun x => !decide (f x = k)) = l.filter fun x => ¬ f x = k := by
          apply List.filter_congr
          intro x _
          simp
        rw [he] at h
        exact h
      have htail : ∀ k2 ∈ ks,
          ((l.filter fun x => ¬ f x = k).filter fun x => f x = k2)
            = l.filter fun x => f x = k2 := by
        intro k2 hk2
        rw [List.filter_filter]
        apply List.filter_congr
        intro x _
        by_cases hfx : f x = k2
        · have hne : ¬ k2 = k := fun hh => hknot (hh ▸ hk2)
          simp [hfx, hne]
        · simp [hfx]
      have hmap : (ks.map fun k2 => (l.filter fun x => f x = k2).length)
          = ks.map fun k2 =>
              ((l.filter fun x => ¬ f x = k).filter fun x => f x = k2).length := by
        apply List.map_congr_left
        intro k2 hk2
        rw [htail k2 hk2]
      rw [hmap, ih hnd2 _ ?_]
      · omega
      · intro x hx
        obtain ⟨hxl, hxk⟩ := List.mem_filter.1 hx
        rcases List.mem_cons.1 (hcov x hxl) with h | h
        · exact absurd h (by simpa using hxk)
        · exact h

/-! ## Inversion lemmas for the modelled normalizer -/

theorem rawParseTS_split {s : String} {ts : Timestamp} (h : rawParseTS s = some ts) :
    ∃ d t, pySplit s ' ' = [d, t] := by
  unfold rawParseTS at h
  rcases hsp : pySplit s ' ' with _ | ⟨d, _ | ⟨t, _ | ⟨u, rest⟩⟩⟩ <;> rw [hsp] at h
  · simp at h
  · simp at h
  · exact ⟨d, t, rfl⟩
  · simp at h

theorem parseTimestamp_inv {s : String} {ts : Timestamp}
    (h : parseTimestamp s = some ts) : rawParseTS s = some ts ∧ validTS ts = true := by
  unfold parseTimestamp at h
  split at h
  · simp at h
  · next ts2 heq =>
      split at h
      · next hv =>
          cases h
          exact ⟨heq, hv⟩
      · simp at h

theorem parseTimestamp_hour_minute {s : String} {ts : Timestamp}
    (h : parseTimestamp s = some ts) : ts.hour ≤ 23 ∧ ts.minute ≤ 59 := by
  have hv := (parseTimestamp_inv h).2
  unfold validTS at hv
  simp only [Bool.and_eq_true, decide_eq_true_eq] at hv
  exact ⟨hv.1.1.2, hv.1.2⟩

theorem process_trip_record_inv {line : String} {zone : ZoneIndex} {r : NormRow}
    (h : process_trip_record line zone = some r) :
    ∃ ts loc bc bn,
      (pySplit line ',').length = 17 ∧
      parseTimestamp ((pySplit line ',').getD 1 "") = some ts ∧
      parseNat ((pySplit line ',').getD 7 "") = some loc ∧
      zoneLookup zone loc = some (bc, bn) ∧
      r = { pickup := (pySplit line ',').getD 1 ""
            time_block := timeBlock ts
            month := ts.month
            day := dayOfWeek ts.year ts.month ts.day
            borough_code := bc
            borough_name := bn } := by
  unfold process_trip_record at h
  split at h
  · next hlen =>
      split at h
      · simp at h
      · next ts hts =>
          split at h
          · simp at h
          · next loc hloc =>
              split at h
              · simp at h
              · next bc bn hz =>
                  exact ⟨ts, loc, bc, bn, hlen, hts, hloc, hz, (Option.some.inj h).symm⟩
  · simp at h

/-! ## Lemmas about the discard filter and the pipeline body -/

theorem filterMap_drop_none {α β : Type} (g : α → Option β) (ls : List α) :
    ls.filterMap g = (ls.filter fun l => (g l).isSome).filterMap g := by
  induction ls with
  | nil => rfl
  | cons a t ih =>
      rcases hg : g a with _ | b
      · rw [List.filterMap_cons_none hg, List.filter_cons]
        simp [hg, ih]
      · rw [List.filterMap_cons_some hg, List.filter_cons]
        simp only [hg, Option.isSome_some, if_pos]
        rw [List.filterMap_cons_some hg, ih]

theorem events_eq (lines : List String) (zone : ZoneIndex) :
    (lines.map fun l => process_trip_record l zone).filterMap id
      = lines.filterMap fun l => process_trip_record l zone := by
  rw [List.filterMap_map]
  rfl

theorem process_batch_data_eq (lines : List String) (zone : ZoneIndex) :
    process_batch_data lines zone =
      stage2 ((stage1 (lines.filterMap fun l => process_trip_record l zone)).map dropDate) := by
  unfold process_batch_data
  rw [events_eq]

/-! ## Claim theorems -/

/-- C2: for every key emitted by the stage-2 cross-day mean reducer the
`days_seen` accumulator (first accumulator component) is at least 1 - an
entry exists only because at least one daily bucket contributed - so the
division `total_trips / days_seen` never divides by zero for an emitted key. -/
theorem C2_days_seen_pos (ps : List (MeanKey × Nat)) (p : MeanKey × (Nat × Nat))
    (hp : p ∈ aggregateByKey ps) : 1 ≤ p.2.1 := by
  unfold aggregateByKey at hp
  rcases List.mem_map.1 hp with ⟨k, hk, rfl⟩
  show 1 ≤ (aggFor ps k).1
  rw [aggFor_eq]
  exact one_le_daysFor hk

/-- Witness for C2: the key of a concrete two-bucket stage-2 input carries
accumulator `(2, 3)`, whose `days_seen` component is at least 1. -/
theorem C2_days_seen_pos_witness :
    1 ≤ ((exKey, ((2 : Nat), (3 : Nat))) : MeanKey × (Nat × Nat)).2.1 :=
  C2_days_seen_pos [(exKey, 1), (exKey, 2)] (exKey, (2, 3)) (by decide)

/-- C3: the stage-2 aggregation is the fold with seed `(0, 0)`, per-element
combine `(days_seen + 1, total_trips + count)` and partial-merge combine
`(days_seen_a + days_seen_b, total_trips_a + total_trips_b)`; per key the
fold yields exactly the number of contributing daily buckets paired with the
sum of their counts. -/
theorem C3_fold_shape (ps : List (MeanKey × Nat)) (k : MeanKey) :
    aggregateByKey ps
        = (keysOf ps).map (fun k2 => (k2, (valuesFor ps k2).foldl aggSeq (0, 0))) ∧
    aggSeq = (fun x y => (x.1 + 1, x.2 + y)) ∧
    aggComb = (fun x y => (x.1 + y.1, x.2 + y.2)) ∧
    aggFor ps k = (daysFor ps k, sumFor ps k) ∧
    daysFor ps k = (valuesFor ps k).length ∧
    sumFor ps k = (valuesFor ps k).sum :=
  ⟨rfl, rfl, rfl, aggFor_eq ps k, rfl, sumFor_eq_sum ps k⟩

/-- C4: both reduction operators (stage-1 per-key `+` and the stage-2
element-combine / partial-merge pair) are associative and commutative, and
per key, reducing arbitrary partitions independently and merging the partial
results - in either order, or over a whole list of partitions - equals
processing the input as one partition. -/
theorem C4_order_independence :
    (∀ x y z : Nat, stage1Op (stage1Op x y) z = stage1Op x (stage1Op y z)) ∧
    (∀ x y : Nat, stage1Op x y = stage1Op y x) ∧
    (∀ x y z : Nat × Nat, aggComb (aggComb x y) z = aggComb x (aggComb y z)) ∧
    (∀ x y : Nat × Nat, aggComb x y = aggComb y x) ∧
    (∀ (ps qs : List (DailyKey × Nat)) (k : DailyKey),
        sumFor (ps ++ qs) k = stage1Op (sumFor ps k) (sumFor qs k)) ∧
    (∀ (ps qs : List (DailyKey × Nat)), ps.Perm qs →
        ∀ k, sumFor ps k = sumFor qs k) ∧
    (∀ (parts : List (List (DailyKey × Nat))) (k : DailyKey),
        sumFor parts.flatten k = (parts.map fun p => sumFor p k).foldl stage1Op 0) ∧
    (∀ (ps qs : List (MeanKey × Nat)) (k : MeanKey),
        aggFor (ps ++ qs) k = aggComb (aggFor ps k) (aggFor qs k)) ∧
    (∀ (ps qs : List (MeanKey × Nat)), ps.Perm qs →
        ∀ k, aggFor ps k = aggFor qs k) ∧
    (∀ (parts : List (List (MeanKey × Nat))) (k : MeanKey),
        aggFor parts.flatten k = (parts.map fun p => aggFor p k).foldl aggComb (0, 0)) := by
  refine ⟨?_, ?_, ?_, ?_, fun ps qs k => sumFor_append ps qs k,
      fun ps qs h k => sumFor_perm h k, fun parts k => sumFor_flatten parts k,
      fun ps qs k => aggFor_append ps qs k, fun ps qs h k => aggFor_perm h k,
      fun parts k => aggFor_flatten parts k⟩
  · intro x y z
    unfold stage1Op
    omega
  · intro x y
    unfold stage1Op
    omega
  · intro x y z
    simp only [aggComb, Prod.mk.injEq]
    constructor <;> omega
  · intro x y
    simp only [aggComb, Prod.mk.injEq]
    constructor <;> omega

/-- Witness for C4: merging the two partial orders of a concrete two-element
input gives equal per-key results for both stages. -/
theorem C4_order_independence_witness :
    sumFor [(("2020-01-01", exKey), 1), (("2020-01-08", exKey), 2)]
        ("2020-01-08", exKey)
      = sumFor [(("2020-01-08", exKey), 2), (("2020-01-01", exKey), 1)]
        ("2020-01-08", exKey) ∧
    aggFor [(exKey, 1), (exKey, 2)] exKey = aggFor [(exKey, 2), (exKey, 1)] exKey := by
  obtain ⟨-, -, -, -, -, h6, -, -, h9, -⟩ := C4_order_independence
  exact ⟨h6 _ _ (List.Perm.swap _ _ _) _, h9 _ _ (List.Perm.swap _ _ _) _⟩

/-- C5: stage 1 emits exactly one entry per distinct daily key observed in
the input, the entry's value is the number of events sharing that key, no
key is invented and none is dropped, and the emitted values sum to the
number of non-discarded events. -/
theorem C5_stage1_counts (rows : List NormRow) :
    ((stage1 rows).map Prod.fst = (rows.map dailyKey).dedup) ∧
    (∀ k c, (k, c) ∈ stage1 rows →
        c = (rows.filter fun r => dailyKey r = k).length) ∧
    (∀ k, (∃ c, (k, c) ∈ stage1 rows) ↔ k ∈ rows.map dailyKey) ∧
    (((stage1 rows).map Prod.snd).sum = rows.length) := by
  have hkeys : keysOf (rows.map fun r => (dailyKey r, (1 : Nat)))
      = (rows.map dailyKey).dedup := by
    unfold keysOf
    rw [List.map_map]
    rfl
  refine ⟨?_, ?_, ?_, ?_⟩
  · unfold stage1 reduceByKey
    rw [← hkeys]
    generalize keysOf (rows.map fun r => (dailyKey r, (1 : Nat))) = ks
    induction ks with
    | nil => rfl
    | cons a t ih => simp [ih]
  · intro k c hkc
    unfold stage1 reduceByKey at hkc
    rcases List.mem_map.1 hkc with ⟨k2, hk2, heq⟩
    obtain ⟨rfl, rfl⟩ := Prod.ext_iff.1 heq
    exact sumFor_pairs dailyKey rows k2
  · intro k
    constructor
    · rintro ⟨c, hkc⟩
      unfold stage1 reduceByKey at hkc
      rcases List.mem_map.1 hkc with ⟨k2, hk2, heq⟩
      obtain ⟨rfl, -⟩ := Prod.ext_iff.1 heq
      have hmem := mem_keysOf.1 hk2
      rwa [List.map_map] at hmem
    · intro hk
      have hk2 : k ∈ keysOf (rows.map fun r => (dailyKey r, (1 : Nat))) := by
        rw [mem_keysOf, List.map_map]
        exact hk
      refine ⟨sumFor (rows.map fun r => (dailyKey r, (1 : Nat))) k, ?_⟩
      unfold stage1 reduceByKey
      exact List.mem_map.2 ⟨k, hk2, rfl⟩
  · unfold stage1 reduceByKey
    rw [List.map_map]
    have hcongr : ((keysOf (rows.map fun r => (dailyKey r, (1 : Nat)))).map
          (Prod.snd ∘ fun k => (k, sumFor (rows.map fun r => (dailyKey r, (1 : Nat))) k)))
        = (keysOf (rows.map fun r => (dailyKey r, (1 : Nat)))).map
            (fun k2 => (rows.filter fun r => dailyKey r = k2).length) :=
      List.map_congr_left fun k2 _ => sumFor_pairs dailyKey rows k2
    rw [hcongr]
    refine sum_keyed dailyKey _ (nodup_keysOf _) rows ?_
    intro r hr
    rw [mem_keysOf, List.map_map]
    exact List.mem_map_of_mem _ hr

/-- Witness for C5's per-entry clause at a concrete input: the two-date,
three-event stage-1 run counts 1 event for the first date's key. -/
theorem C5_stage1_counts_witness :
    (1 : Nat) = ((([
        NormRow.mk "2020-01-01 08:00:00" 32 1 "Wednesday" "B" "Brooklyn",
        NormRow.mk "2020-01-08 08:01:00" 32 1 "Wednesday" "B" "Brooklyn",
        NormRow.mk "2020-01-08 08:02:00" 32 1 "Wednesday" "B" "Brooklyn"]).filter
          fun r => dailyKey r = ("2020-01-01", (32, 1, "Wednesday", "B", "Brooklyn"))).length) :=
  (C5_stage1_counts _).2.1 ("2020-01-01", (32, 1, "Wednesday", "B", "Brooklyn")) 1
    (by decide)

/-- C6: the stage-1 grouping key is the six-tuple whose first component is
the date portion (the part before the space) of the pickup timestamp carried
by the normalized event, followed by time block, month, day of week, borough
code and borough name; stage 2 re-keys by dropping exactly the date
component, leaving the count unchanged. -/
theorem C6_keys (line : String) (zone : ZoneIndex) (r : NormRow)
    (h : process_trip_record line zone = some r) :
    (r.pickup = (pySplit line ',').getD 1 "" ∧
      ∃ d t, pySplit r.pickup ' ' = [d, t] ∧
        dailyKey r = (d, (r.time_block, r.month, r.day, r.borough_code, r.borough_name))) ∧
    (∀ p : DailyKey × Nat, dropDate p = (p.1.2, p.2)) := by
  refine ⟨?_, fun p => rfl⟩
  obtain ⟨ts, loc, bc, bn, hlen, hts, hloc, hz, hr⟩ := process_trip_record_inv h
  subst hr
  refine ⟨rfl, ?_⟩
  obtain ⟨hraw, -⟩ := parseTimestamp_inv hts
  obtain ⟨d, t, hdt⟩ := rawParseTS_split hraw
  refine ⟨d, t, hdt, ?_⟩
  unfold dailyKey
  rw [hdt]
  rfl

/-- Witness for C6 at a concrete line: the normalized event's daily key is
the date portion "2020-01-01" of its pickup timestamp plus the stage-2
components. -/
theorem C6_keys_witness :
    ((NormRow.mk "2020-01-01 08:00:00" 32 1 "Wednesday" "B" "Brooklyn").pickup
        = (pySplit exLine1 ',').getD 1 "" ∧
      ∃ d t, pySplit "2020-01-01 08:00:00" ' ' = [d, t] ∧
        dailyKey (NormRow.mk "2020-01-01 08:00:00" 32 1 "Wednesday" "B" "Brooklyn")
          = (d, (32, 1, "Wednesday", "B", "Brooklyn"))) ∧
    (∀ p : DailyKey × Nat, dropDate p = (p.1.2, p.2)) :=
  C6_keys exLine1 exZone (NormRow.mk "2020-01-01 08:00:00" 32 1 "Wednesday" "B" "Brooklyn")
    (by decide)

/-- C7: a record the normalizer discards is excluded from all downstream
aggregation and never aborts the batch: the pipeline output over any input
equals the output over only the non-discarded lines, and prepending a
discarded line leaves the output unchanged. -/
theorem C7_discard_isolation (lines : List String) (zone : ZoneIndex) :
    (process_batch_data lines zone
        = process_batch_data
            (lines.filter fun l => (process_trip_record l zone).isSome) zone) ∧
    (∀ l rest, process_trip_record l zone = none →
        process_batch_data (l :: rest) zone = process_batch_data rest zone) := by
  constructor
  · rw [process_batch_data_eq, process_batch_data_eq, ← filterMap_drop_none]
  · intro l rest hl
    rw [process_batch_data_eq, process_batch_data_eq,
      @List.filterMap_cons_none String NormRow (fun l2 => process_trip_record l2 zone)
        l rest hl]

/-- Witness for C7: prepending a concrete malformed line (wrong column
count, hence discarded) leaves the concrete pipeline output unchanged. -/
theorem C7_discard_isolation_witness :
    process_batch_data [exBad, exLine1] exZone = process_batch_data [exLine1] exZone :=
  (C7_discard_isolation [exBad, exLine1] exZone).2 exBad [exLine1] (by decide)

/-- C8: every successfully parsed pickup timestamp yields
`time_block = floor(minutes_since_midnight / 15)`, which lies in `[0, 95]`
(the lower bound holding trivially in `Nat`); consequently every normalized
event's time block is at most 95. -/
theorem C8_time_block_range :
    (∀ (s : String) (ts : Timestamp), parseTimestamp s = some ts →
        timeBlock ts = minutesSinceMidnight ts / 15 ∧ timeBlock ts ≤ 95) ∧
    (∀ (line : String) (zone : ZoneIndex) (r : NormRow),
        process_trip_record line zone = some r → r.time_block ≤ 95) := by
  have hmain : ∀ (s : String) (ts : Timestamp), parseTimestamp s = some ts →
      timeBlock ts = minutesSinceMidnight ts / 15 ∧ timeBlock ts ≤ 95 := by
    intro s ts h
    obtain ⟨hh, hm⟩ := parseTimestamp_hour_minute h
    refine ⟨rfl, ?_⟩
    unfold timeBlock minutesSinceMidnight
    calc (ts.hour * 60 + ts.minute) / 15 ≤ 1439 / 15 :=
          Nat.div_le_div_right (by omega)
      _ = 95 := rfl
  refine ⟨hmain, ?_⟩
  intro line zone r h
  obtain ⟨ts, loc, bc, bn, hlen, hts, hloc, hz, hr⟩ := process_trip_record_inv h
  subst hr
  exact (hmain _ _ hts).2

/-- Witness for C8 at the concrete timestamp 2020-01-01 08:00:00, which
parses and falls in time block 32. -/
theorem C8_time_block_range_witness :
    timeBlock (Timestamp.mk 2020 1 1 8 0 0)
        = minutesSinceMidnight (Timestamp.mk 2020 1 1 8 0 0) / 15 ∧
    timeBlock (Timestamp.mk 2020 1 1 8 0 0) ≤ 95 :=
  C8_time_block_range.1 "2020-01-01 08:00:00" (Timestamp.mk 2020 1 1 8 0 0) (by decide)

/-- C9: every final output row is the six-tuple
`(time_block, month, day_of_week, borough_code, borough_name, mean)` in that
column order, with exactly one row per distinct stage-2 key (the key
projections of the rows are duplicate-free and the row count equals the
distinct-key count); the row set is order-insensitive: permuting the stage-2
input permutes the output. -/
theorem C9_output_shape (ps qs : List (MeanKey × Nat)) :
    (stage2 ps = (keysOf ps).map fun k =>
        (k.1, k.2.1, k.2.2.1, k.2.2.2.1, k.2.2.2.2, sumFor ps k / daysFor ps k)) ∧
    (((stage2 ps).map fun row =>
        (row.1, row.2.1, row.2.2.1, row.2.2.2.1, row.2.2.2.2.1)).Nodup) ∧
    ((stage2 ps).length = (keysOf ps).length) ∧
    (ps.Perm qs → (stage2 ps).Perm (stage2 qs)) := by
  have hshape : ∀ rs : List (MeanKey × Nat), stage2 rs = (keysOf rs).map fun k =>
      (k.1, k.2.1, k.2.2.1, k.2.2.2.1, k.2.2.2.2, sumFor rs k / daysFor rs k) := by
    intro rs
    unfold stage2 aggregateByKey
    rw [List.map_map]
    apply List.map_congr_left
    intro k hk
    show finalizeRow (k, aggFor rs k) = _
    rw [aggFor_eq]
    rfl
  refine ⟨hshape ps, ?_, ?_, ?_⟩
  · rw [hshape ps, List.map_map]
    have hid : ((keysOf ps).map ((fun row : OutputRow =>
          (row.1, row.2.1, row.2.2.1, row.2.2.2.1, row.2.2.2.2.1)) ∘ fun k =>
          (k.1, k.2.1, k.2.2.1, k.2.2.2.1, k.2.2.2.2, sumFor ps k / daysFor ps k)))
        = (keysOf ps).map id := by
      apply List.map_congr_left
      intro k hk
      obtain ⟨a, b, c, d, e⟩ := k
      rfl
    rw [hid, List.map_id]
    exact nodup_keysOf ps
  · rw [hshape ps, List.length_map]
  · intro hperm
    rw [hshape ps, hshape qs]
    have h1 : ((keysOf ps).map fun k =>
          (k.1, k.2.1, k.2.2.1, k.2.2.2.1, k.2.2.2.2, sumFor ps k / daysFor ps k)).Perm
        ((keysOf qs).map fun k =>
          (k.1, k.2.1, k.2.2.1, k.2.2.2.1, k.2.2.2.2, sumFor ps k / daysFor ps k)) :=
      (keysOf_perm hperm).map _
    have h2 : ((keysOf qs).map fun k =>
          (k.1, k.2.1, k.2.2.1, k.2.2.2.1, k.2.2.2.2, sumFor ps k / daysFor ps k))
        = (keysOf qs).map fun k =>
          (k.1, k.2.1, k.2.2.1, k.2.2.2.1, k.2.2.2.2, sumFor qs k / daysFor qs k) := by
      apply List.map_congr_left
      intro k hk
      rw [sumFor_perm hperm, daysFor_perm hperm]
    exact h2 ▸ h1
/-- Witness for C9's permutation clause on a concrete two-entry input. -/
theorem C9_output_shape_witness :
    (stage2 [(exKey, 1), (exKey, 2)]).Perm (stage2 [(exKey, 2), (exKey, 1)]) :=
  (C9_output_shape [(exKey, 1), (exKey, 2)] [(exKey, 2), (exKey, 1)]).2.2.2
    (List.Perm.swap _ _ _)

/-- Every entry of the stage-1 output carries a count of at least 1: it
aggregates a nonempty fiber of events each mapped to the value 1. -/
theorem one_le_stage1_value {rows : List NormRow} {p : DailyKey × Nat}
    (hp : p ∈ stage1 rows) : 1 ≤ p.2 := by
  unfold stage1 reduceByKey at hp
  rcases List.mem_map.1 hp with ⟨k, hk, rfl⟩
  show 1 ≤ sumFor (rows.map fun r => (dailyKey r, (1 : Nat))) k
  rw [sumFor_pairs]
  rw [mem_keysOf, List.map_map] at hk
  rcases List.mem_map.1 hk with ⟨r, hr, rfl⟩
  exact List.length_pos_of_mem
    (List.mem_filter.2 ⟨hr, by simp [Function.comp]⟩)

/-- C10: every emitted output row has mean at least 1: each stage-1 daily
count is at least 1, so in stage 2 `total_trips ≥ days_seen ≥ 1` and the
floor division `total_trips / days_seen` is at least 1. -/
theorem C10_mean_ge_one (lines : List String) (zone : ZoneIndex) (row : OutputRow)
    (hrow : row ∈ process_batch_data lines zone) : 1 ≤ row.2.2.2.2.2 := by
  rw [process_batch_data_eq] at hrow
  unfold stage2 at hrow
  rcases List.mem_map.1 hrow with ⟨p, hp, rfl⟩
  unfold aggregateByKey at hp
  rcases List.mem_map.1 hp with ⟨k, hk, rfl⟩
  show 1 ≤ (aggFor ((stage1 (lines.filterMap fun l => process_trip_record l zone)).map
      dropDate) k).2 / (aggFor ((stage1 (lines.filterMap fun l =>
      process_trip_record l zone)).map dropDate) k).1
  rw [aggFor_eq]
  show 1 ≤ sumFor ((stage1 (lines.filterMap fun l => process_trip_record l zone)).map
      dropDate) k / daysFor ((stage1 (lines.filterMap fun l =>
      process_trip_record l zone)).map dropDate) k
  have hdays := one_le_daysFor hk
  have hvals : ∀ v ∈ valuesFor ((stage1 (lines.filterMap fun l =>
      process_trip_record l zone)).map dropDate) k, 1 ≤ v := by
    intro v hv
    have hvq := mem_valuesFor.1 hv
    rcases List.mem_map.1 hvq with ⟨p2, hp2, heq⟩
    have h2 : p2.2 = v := congrArg Prod.snd heq
    have h1 := one_le_stage1_value hp2
    omega
  have hsum : daysFor ((stage1 (lines.filterMap fun l =>
        process_trip_record l zone)).map dropDate) k
      ≤ sumFor ((stage1 (lines.filterMap fun l =>
        process_trip_record l zone)).map dropDate) k := by
    rw [sumFor_eq_sum]
    exact List.length_le_sum_of_one_le _ hvals
  rw [Nat.one_le_div_iff (by omega)]
  exact hsum

/-- Witness for C10: the concrete three-trip pipeline run emits the single
row with mean 1, which is at least 1. -/
theorem C10_mean_ge_one_witness :
    1 ≤ (((32 : Nat), (1 : Nat), "Wednesday", "B", "Brooklyn", (1 : Nat))
        : OutputRow).2.2.2.2.2 :=
  C10_mean_ge_one [exLine1, exLine2, exLine3] exZone
    (32, 1, "Wednesday", "B", "Brooklyn", 1) (by decide)

/-- C1 counterexample: on a concrete input whose stage-2 key appears on the
two distinct dates 2020-01-01 and 2020-01-08 with daily counts 1 and 2, the
pipeline emits mean 1 (Python 2 integer division `3 / 2`), but the exact
rational mean `(1 + 2) / 2 = 3 / 2` is not 1: the emitted mean is not the
exact rational division of the claim. -/
theorem C1_counterexample :
    process_batch_data [exLine1, exLine2, exLine3] exZone
        = [(32, 1, "Wednesday", "B", "Brooklyn", 1)] ∧
    stage1 (([exLine1, exLine2, exLine3].map fun l =>
        process_trip_record l exZone).filterMap id)
        = [(("2020-01-01", (32, 1, "Wednesday", "B", "Brooklyn")), 1),
           (("2020-01-08", (32, 1, "Wednesday", "B", "Brooklyn")), 2)] ∧
    (((1 : Nat) : ℚ) + ((2 : Nat) : ℚ)) / ((2 : Nat) : ℚ) ≠ ((1 : Nat) : ℚ) := by
  refine ⟨by decide, by rfl, ?_⟩
  norm_num

/-- C1 (amended): for every key of the stage-2 input, the emitted output row
carries as mean the floor `⌊(c_1 + ... + c_d) / d⌋` of the exact rational
mean of the key's daily counts - Python 2 integer division - rather than the
exact rational value. -/
theorem C1_mean_floor (ps : List (MeanKey × Nat)) (k : MeanKey)
    (hk : k ∈ keysOf ps) :
    (k.1, k.2.1, k.2.2.1, k.2.2.2.1, k.2.2.2.2,
        ⌊((sumFor ps k : ℚ)) / ((daysFor ps k : ℚ))⌋₊) ∈ stage2 ps := by
  have hmem : (k.1, k.2.1, k.2.2.1, k.2.2.2.1, k.2.2.2.2,
      sumFor ps k / daysFor ps k) ∈ stage2 ps := by
    unfold stage2 aggregateByKey
    rw [List.map_map]
    refine List.mem_map.2 ⟨k, hk, ?_⟩
    show finalizeRow (k, aggFor ps k) = _
    rw [aggFor_eq]
    rfl
  rwa [Nat.floor_div_eq_div]

/-- Witness for C1's amended statement on the concrete two-bucket input with
daily counts 1 and 2: the emitted mean is the floor of `3 / 2`. -/
theorem C1_mean_floor_witness :
    ((32 : Nat), (1 : Nat), "Wednesday", "B", "Brooklyn",
        ⌊((sumFor [(exKey, 1), (exKey, 2)] exKey : ℚ))
            / ((daysFor [(exKey, 1), (exKey, 2)] exKey : ℚ))⌋₊) ∈
      stage2 [(exKey, 1), (exKey, 2)] :=
  C1_mean_floor [(exKey, 1), (exKey, 2)] exKey (by decide)

end TaxiBatch
